import Mathlib

/-!
Verification development for the komari-agent monitoring agent.

The definitions below are shallow embeddings of the Go sources:
`monitoring/netstatic/static.go`, `monitoring/unit/net.go`,
`utils/last_reset_date.go` (GetLastResetDate), and the terminal bridge.
Go `uint64` values are modelled as `Nat` together with explicit reduction
modulo `U64 = 2^64` wherever the Go code can overflow or wrap; Go maps
`map[string]T` are modelled as association lists with unique keys.
-/

namespace KomariAgent

/-- The modulus of Go uint64 arithmetic. -/
def U64 : Nat := 18446744073709551616

/-- One traffic sample delta (struct TrafficData of static.go): unix
timestamp in seconds, and tx/rx byte deltas since the previous sample. -/
structure TrafficData where
  timestamp : Nat
  tx : Nat
  rx : Nat
deriving DecidableEq, Repr

/-- Association list standing for a Go map with string keys (keys unique). -/
abbrev AL (α : Type) := List (String × α)

/-- Go map read: first entry with the given key, if any. -/
def alGet {α : Type} : AL α → String → Option α
  | [], _ => none
  | (k, v) :: rest, q => if k = q then some v else alGet rest q

/-- Go map write: replace the entry with the given key, or insert it. -/
def alSet {α : Type} : AL α → String → α → AL α
  | [], q, v => [(q, v)]
  | (k, w) :: rest, q, v => if k = q then (q, v) :: rest else (k, w) :: alSet rest q v

/-- The slice stored for a key, the empty slice when the key is absent
(Go indexing of a map of slices yields the zero value). -/
def alGetArr (l : AL (List TrafficData)) (q : String) : List TrafficData :=
  (alGet l q).getD []

/-- Go `m[name] = append(m[name], td)` on a map of slices. -/
def alAppendTD (l : AL (List TrafficData)) (q : String) (td : TrafficData) :
    AL (List TrafficData) :=
  alSet l q (alGetArr l q ++ [td])

/-- Effective netstatic configuration (struct NetStaticConfig of static.go).
The three interval fields carry exact integral values in the source
(31, 2, 600), so they are modelled as naturals. -/
structure NetStaticConfig where
  dataPreserveDay : Nat
  detectInterval : Nat
  saveInterval : Nat
  nics : List String
deriving DecidableEq, Repr

/-- isNicAllowed of static.go: with an empty whitelist every NIC is
allowed, otherwise only NICs whose name occurs in the whitelist. -/
def isNicAllowed (nics : List String) (name : String) : Bool :=
  if nics.isEmpty then true else nics.contains name

/-- safeDelta of static.go: current minus previous counter when the
counter did not decrease, otherwise 0 (counter wrap or reset). -/
def safeDelta (cur prev : Nat) : Nat :=
  if cur ≥ prev then cur - prev else 0

/-- One row of gopsutil IOCounters: interface name and cumulative byte
counters (uint64 values, assumed below 2^64). -/
structure IOCounter where
  name : String
  bytesSent : Nat
  bytesRecv : Nat
deriving DecidableEq, Repr

/-- The mutable state touched by the netstatic sampling loop: the
unsaved cache (staticCache) and the previous counter readings
(lastCounters). -/
structure SampState where
  cache : AL (List TrafficData)
  last : AL (Nat × Nat)
deriving DecidableEq, Repr

/-- The body of the per-interface loop of sampleOnceLocked in static.go:
skip NICs outside the whitelist; when a previous reading exists, append
the safe deltas to the cache when at least one is positive; always record
the current reading as the new baseline. -/
def sampleStep (nics : List String) (ts : Nat) (st : SampState) (ioc : IOCounter) :
    SampState :=
  if isNicAllowed nics ioc.name then
    let st1 :=
      match alGet st.last ioc.name with
      | some prev =>
          let dtx := safeDelta ioc.bytesSent prev.1
          let drx := safeDelta ioc.bytesRecv prev.2
          if dtx > 0 ∨ drx > 0 then
            { st with cache := alAppendTD st.cache ioc.name ⟨ts, dtx, drx⟩ }
          else st
      | none => st
    { st1 with last := alSet st1.last ioc.name (ioc.bytesSent, ioc.bytesRecv) }
  else st

/-- sampleOnceLocked of static.go, applied to a given list of kernel
counter rows (the result of gnet.IOCounters) at timestamp ts. -/
def sampleOnceLocked (nics : List String) (ts : Nat) (st : SampState)
    (ios : List IOCounter) : SampState :=
  ios.foldl (sampleStep nics ts) st

/-- Sum the tx fields of a cache slice in uint64 arithmetic
(the sumTx accumulation of flushCacheLocked). -/
def sumTxU64 (arr : List TrafficData) : Nat :=
  arr.foldl (fun acc td => (acc + td.tx) % U64) 0

/-- Sum the rx fields of a cache slice in uint64 arithmetic
(the sumRx accumulation of flushCacheLocked). -/
def sumRxU64 (arr : List TrafficData) : Nat :=
  arr.foldl (fun acc td => (acc + td.rx) % U64) 0

/-- flushCacheLocked of static.go: roll every cached slice up into a
single datum stamped ts and append it to the persistent map, skipping
slices whose rolled-up sums are both zero; the cache is cleared by the
caller taking the returned map as the new persistent map. -/
def flushCacheLocked (ts : Nat) (store cache : AL (List TrafficData)) :
    AL (List TrafficData) :=
  cache.foldl
    (fun st p =>
      let sTx := sumTxU64 p.2
      let sRx := sumRxU64 p.2
      if sTx > 0 ∨ sRx > 0 then alAppendTD st p.1 ⟨ts, sTx, sRx⟩ else st)
    store

/-- purgeExpiredLocked of static.go with its cutoff timestamp made an
argument (the source computes it from the preserve-days configuration
and the current time): keep only data stamped at or after the cutoff and
drop interfaces whose slice becomes empty. -/
def purgeExpiredLocked (cutoff : Nat) (ifaces : AL (List TrafficData)) :
    AL (List TrafficData) :=
  (ifaces.map (fun p => (p.1, p.2.filter (fun td => cutoff ≤ td.timestamp)))).filter
    (fun p => ¬p.2.isEmpty)

/-- The cutoff computed by purgeExpiredLocked: the current unix time
minus the preserve window in seconds (Nat subtraction truncates at 0,
matching the claim's reading of the uint64 conversion for sane inputs). -/
def purgeCutoff (preserveDays now : Nat) : Nat :=
  now - preserveDays * 86400

/-- ForceReplaceRecord of static.go: install the given record as the
persistent interface map wholesale, then purge expired data. -/
def ForceReplaceRecord (cutoff : Nat) (rec : AL (List TrafficData)) :
    AL (List TrafficData) :=
  purgeExpiredLocked cutoff rec

/-- The whitelist invariant of the spec: every NIC key of the interface
map lies in the whitelist w. -/
def nicKeysSubset (w : List String) (ifaces : AL (List TrafficData)) : Prop :=
  ∀ p ∈ ifaces, p.1 ∈ w

instance (w : List String) (ifaces : AL (List TrafficData)) :
    Decidable (nicKeysSubset w ifaces) :=
  List.decidableBAll _ ifaces

theorem mem_alSet {α : Type} {l : AL α} {k : String} {v : α} {q : String × α}
    (h : q ∈ alSet l k v) : q = (k, v) ∨ q ∈ l := by
  induction l with
  | nil =>
      simp only [alSet, List.mem_singleton] at h
      exact Or.inl h
  | cons p rest ih =>
      simp only [alSet] at h
      split at h
      · rcases List.mem_cons.mp h with h1 | h1
        · exact Or.inl h1
        · exact Or.inr (List.mem_cons_of_mem _ h1)
      · rcases List.mem_cons.mp h with h1 | h1
        · subst h1; exact Or.inr (List.mem_cons_self _ _)
        · rcases ih h1 with h2 | h2
          · exact Or.inl h2
          · exact Or.inr (List.mem_cons_of_mem _ h2)

theorem mem_alAppendTD {l : AL (List TrafficData)} {k : String} {td : TrafficData}
    {q : String × List TrafficData} (h : q ∈ alAppendTD l k td) : q.1 = k ∨ q ∈ l := by
  rcases mem_alSet h with h1 | h1
  · rw [h1]; exact Or.inl rfl
  · exact Or.inr h1

theorem isNicAllowed_mem {w : List String} {n : String} (hw : w ≠ [])
    (h : isNicAllowed w n = true) : n ∈ w := by
  unfold isNicAllowed at h
  rw [if_neg (by simpa using hw)] at h
  simpa using h

theorem sampleStep_cache_subset {w : List String} (hw : w ≠ []) (ts : Nat)
    {st : SampState} (ioc : IOCounter) (hc : nicKeysSubset w st.cache) :
    nicKeysSubset w (sampleStep w ts st ioc).cache := by
  unfold sampleStep
  split
  · rename_i hallow
    cases hlast : alGet st.last ioc.name with
    | none => simpa using hc
    | some prev =>
        simp only [hlast]
        split
        · intro q hq
          rcases mem_alAppendTD hq with h1 | h1
          · rw [h1]; exact isNicAllowed_mem hw hallow
          · exact hc q h1
        · simpa using hc
  · exact hc

theorem sampleOnce_cache_subset {w : List String} (hw : w ≠ []) (ts : Nat)
    (st : SampState) (ios : List IOCounter) (hc : nicKeysSubset w st.cache) :
    nicKeysSubset w (sampleOnceLocked w ts st ios).cache := by
  induction ios generalizing st with
  | nil => simpa [sampleOnceLocked] using hc
  | cons ioc rest ih =>
      have h1 := sampleStep_cache_subset hw ts ioc hc
      simpa [sampleOnceLocked] using ih _ h1

theorem flushCache_subset {w : List String} (ts : Nat)
    {store cache : AL (List TrafficData)}
    (hs : nicKeysSubset w store) (hc : nicKeysSubset w cache) :
    nicKeysSubset w (flushCacheLocked ts store cache) := by
  unfold flushCacheLocked
  induction cache generalizing store with
  | nil => simpa using hs
  | cons p rest ih =>
      have hp : p.1 ∈ w := hc p (List.mem_cons_self _ _)
      have hrest : nicKeysSubset w rest := fun q hq => hc q (List.mem_cons_of_mem _ hq)
      simp only [List.foldl_cons]
      apply ih _ hrest
      split
      · intro q hq
        rcases mem_alAppendTD hq with h1 | h1
        · rw [h1]; exact hp
        · exact hs q h1
      · exact hs

theorem purgeExpired_subset {w : List String} (cutoff : Nat)
    {ifaces : AL (List TrafficData)} (hs : nicKeysSubset w ifaces) :
    nicKeysSubset w (purgeExpiredLocked cutoff ifaces) := by
  intro q hq
  simp only [purgeExpiredLocked, List.mem_filter, List.mem_map] at hq
  obtain ⟨⟨p, hp, rfl⟩, -⟩ := hq
  exact hs p hp

/-- Claim C4 (confirmed): safeDelta is the truncated difference — cur − prev
when the counter did not decrease and exactly 0 when it did — and a
sampling tick on which both counters of a NIC have decreased appends no
traffic datum to the cache; in particular the spec's wrap scenario
(baseline tx two-to-the-32 minus 100 and rx 0, next reading tx 50 and
rx 0) leaves the cache empty. -/
theorem safeDelta_wrap_appends_nothing
    (cur prev : Nat) (hcur : cur < U64) (hprev : prev < U64)
    (nics : List String) (ts : Nat) (st : SampState) (ioc : IOCounter)
    (ptx prx : Nat)
    (hlast : alGet st.last ioc.name = some (ptx, prx))
    (htx : ioc.bytesSent < ptx) (hrx : ioc.bytesRecv < prx) :
    (prev ≤ cur → safeDelta cur prev = cur - prev) ∧
    (cur < prev → safeDelta cur prev = 0) ∧
    (sampleOnceLocked nics ts st [ioc]).cache = st.cache ∧
    (sampleOnceLocked []
      1000 ⟨[], [("eth0", (4294967196, 0))]⟩ [⟨"eth0", 50, 0⟩]).cache = [] := by
  have hdtx : safeDelta ioc.bytesSent ptx = 0 := by
    unfold safeDelta; rw [if_neg]; omega
  have hdrx : safeDelta ioc.bytesRecv prx = 0 := by
    unfold safeDelta; rw [if_neg]; omega
  refine ⟨?_, ?_, ?_, by decide⟩
  · intro h; unfold safeDelta; rw [if_pos h]
  · intro h; unfold safeDelta; rw [if_neg]; omega
  · by_cases hallow : isNicAllowed nics ioc.name
    · simp [sampleOnceLocked, sampleStep, hallow, hlast, hdtx, hdrx]
    · simp [sampleOnceLocked, sampleStep, hallow]

/-- Witness for claim C4 at concrete inputs: counters 4294967196 then 50
for tx and 7 then 3 for rx, a singleton baseline map. -/
theorem safeDelta_wrap_appends_nothing_witness :
    (10 ≤ 50 → safeDelta 50 10 = 50 - 10) ∧
    (50 < 10 → safeDelta 50 10 = 0) ∧
    (sampleOnceLocked ["eth0"] 2000 ⟨[], [("eth0", (4294967196, 7))]⟩
      [⟨"eth0", 50, 3⟩]).cache = [] ∧
    (sampleOnceLocked []
      1000 ⟨[], [("eth0", (4294967196, 0))]⟩ [⟨"eth0", 50, 0⟩]).cache = [] :=
  safeDelta_wrap_appends_nothing 50 10 (by decide) (by decide)
    ["eth0"] 2000 ⟨[], [("eth0", (4294967196, 7))]⟩ ⟨"eth0", 50, 3⟩
    4294967196 7 (by decide) (by decide) (by decide)

/-- Claim C2 counterexample: with effective whitelist containing only
eth0, ForceReplaceRecord installs a record keyed by eth1 into the
persistent interface map, so the whitelist-subset invariant is not
preserved by every store operation. -/
theorem forceReplace_breaks_whitelist :
    ¬ nicKeysSubset ["eth0"] (ForceReplaceRecord 0 [("eth1", [⟨1000, 5, 5⟩])]) := by
  decide

/-- Claim C2 as amended (proved): the sampling pipeline does preserve the
whitelist invariant — a sampling tick only ever appends cache data for
NICs in the non-empty whitelist w, and the flush-then-purge step keeps
the persistent map's keys inside w whenever the store and cache keys
already were — but ForceReplaceRecord, SetNewConfig and load install
maps unfiltered and so do not preserve it. -/
theorem whitelist_preserved_by_sampling_flush_purge
    (w : List String) (hw : w ≠ [])
    (st : SampState) (ios : List IOCounter) (ts ts2 cutoff : Nat)
    (store cache : AL (List TrafficData))
    (hc : nicKeysSubset w st.cache)
    (hs : nicKeysSubset w store) (hcc : nicKeysSubset w cache) :
    nicKeysSubset w (sampleOnceLocked w ts st ios).cache ∧
    nicKeysSubset w (purgeExpiredLocked cutoff (flushCacheLocked ts2 store cache)) :=
  ⟨sampleOnce_cache_subset hw ts st ios hc,
   purgeExpired_subset cutoff (flushCache_subset ts2 hs hcc)⟩

/-- Witness for the amended claim C2 at concrete inputs. -/
theorem whitelist_preserved_witness :
    nicKeysSubset ["eth0"]
      (sampleOnceLocked ["eth0"] 5 ⟨[("eth0", [⟨1, 2, 3⟩])], []⟩
        [⟨"eth1", 9, 9⟩]).cache ∧
    nicKeysSubset ["eth0"]
      (purgeExpiredLocked 0 (flushCacheLocked 6 [("eth0", [⟨1, 2, 3⟩])]
        [("eth0", [⟨2, 4, 5⟩])])) :=
  whitelist_preserved_by_sampling_flush_purge ["eth0"] (by decide)
    ⟨[("eth0", [⟨1, 2, 3⟩])], []⟩ [⟨"eth1", 9, 9⟩] 5 6 0
    [("eth0", [⟨1, 2, 3⟩])] [("eth0", [⟨2, 4, 5⟩])]
    (by decide) (by decide) (by decide)

theorem alGet_mem {α : Type} {l : AL α} {q : String} {v : α}
    (h : alGet l q = some v) : (q, v) ∈ l := by
  induction l with
  | nil => simp [alGet] at h
  | cons p rest ih =>
      obtain ⟨k, w⟩ := p
      simp only [alGet] at h
      split at h
      · rename_i hkq
        injection h with h
        subst h; subst hkq
        exact List.mem_cons_self _ _
      · exact List.mem_cons_of_mem _ (ih h)

/-- Claim C6 (confirmed): both flush sites — the periodic save tick and
Stop — run flushCacheLocked and then purgeExpiredLocked, after which no
datum with timestamp strictly older than now minus preserveDays·86400
seconds remains in the persistent interface map. -/
theorem flush_purges_expired
    (preserveDays now ts : Nat) (store cache : AL (List TrafficData))
    (q : String) (arr : List TrafficData) (td : TrafficData)
    (hget : alGet (purgeExpiredLocked (purgeCutoff preserveDays now)
      (flushCacheLocked ts store cache)) q = some arr)
    (hmem : td ∈ arr) :
    ¬ td.timestamp < now - preserveDays * 86400 := by
  have h1 := alGet_mem hget
  simp only [purgeExpiredLocked, List.mem_filter, List.mem_map] at h1
  obtain ⟨⟨p, hp, heq⟩, -⟩ := h1
  have harr : arr = p.2.filter (fun td => purgeCutoff preserveDays now ≤ td.timestamp) := by
    have := congrArg Prod.snd heq
    simpa using this.symm
  rw [harr] at hmem
  have h2 := (List.mem_filter.mp hmem).2
  simp only [decide_eq_true_eq] at h2
  unfold purgeCutoff at h2
  omega

/-- Witness for claim C6 at a concrete store and cache. -/
theorem flush_purges_expired_witness :
    ¬ (⟨999000, 2, 2⟩ : TrafficData).timestamp < 1000000 - 1 * 86400 :=
  flush_purges_expired 1 1000000 999999 [("eth0", [⟨50, 1, 1⟩, ⟨999000, 2, 2⟩])] []
    "eth0" [⟨999000, 2, 2⟩] ⟨999000, 2, 2⟩ (by decide)
    (by decide)

/-- The loopbackNames prefix set of monitoring/unit/net.go (the map is
only iterated for an any-of test, so a list is equivalent). -/
def loopbackNames : List String :=
  ["br", "cni", "docker", "podman", "flannel", "lo", "veth", "virbr", "vmbr"]

/-- Go strings.HasPrefix, stated on the character lists of the two
strings (computable by kernel reduction). -/
def strStarts (p s : String) : Bool := p.data.isPrefixOf s.data

/-- shouldInclude of monitoring/unit/net.go: drop NICs whose name starts
with a loopback-style name; with a non-empty include set, keep exactly
its members; otherwise drop members of the exclude set. -/
def shouldInclude (nicName : String) (includeNics excludeNics : List String) : Bool :=
  if loopbackNames.any (fun p => strStarts p nicName) then false
  else if ¬includeNics.isEmpty then includeNics.contains nicName
  else if ¬excludeNics.isEmpty ∧ excludeNics.contains nicName then false
  else true

/-- Go uint64 subtraction: a − b wrapping modulo 2^64, for a and b
below 2^64. -/
def u64sub (a b : Nat) : Nat := (a + U64 - b) % U64

/-- The totals accumulated by getNetworkSpeedFallback over one reading:
the uint64 sums of BytesSent and BytesRecv over the included NICs. -/
def sumIncluded (inc exc : List String) (ios : List IOCounter) : Nat × Nat :=
  ios.foldl
    (fun acc ioc =>
      if shouldInclude ioc.name inc exc then
        ((acc.1 + ioc.bytesSent) % U64, (acc.2 + ioc.bytesRecv) % U64)
      else acc)
    (0, 0)

/-- The value returned by getNetworkSpeedFallback of net.go. -/
structure SpeedResult where
  totalUp : Nat
  totalDown : Nat
  upSpeed : Nat
  downSpeed : Nat
  err : Bool
deriving DecidableEq, Repr

/-- getNetworkSpeedFallback of monitoring/unit/net.go, applied to the two
kernel counter readings taken one second apart: totals are the second
reading's sums, and the speeds are the raw uint64 differences
second minus first (which wrap on underflow). -/
def getNetworkSpeedFallback (inc exc : List String)
    (ios1 ios2 : List IOCounter) : SpeedResult :=
  if ios1.isEmpty then ⟨0, 0, 0, 0, true⟩
  else if ios2.isEmpty then ⟨0, 0, 0, 0, true⟩
  else
    let s1 := sumIncluded inc exc ios1
    let s2 := sumIncluded inc exc ios2
    ⟨s2.1, s2.2, u64sub s2.1 s1.1, u64sub s2.2 s1.2, false⟩

set_option maxRecDepth 100000 in
/-- Claim C1 counterexample: a counter reset between the two readings
(100 bytes sent, then 50) makes the reported up-speed the wrapped value
2^64 − 50 rather than the claimed 0. -/
theorem underflow_speed_not_zero :
    ¬ (getNetworkSpeedFallback [] [] [⟨"eth0", 100, 100⟩]
        [⟨"eth0", 50, 50⟩]).upSpeed = 0 := by
  decide

theorem sumIncluded_lt (inc exc : List String) (ios : List IOCounter) :
    (sumIncluded inc exc ios).1 < U64 ∧ (sumIncluded inc exc ios).2 < U64 := by
  unfold sumIncluded
  have h0 : (0, 0).1 < U64 ∧ ((0 : Nat), (0 : Nat)).2 < U64 := by
    constructor <;> (simp [U64])
  generalize (0, 0) = acc at h0 ⊢
  induction ios generalizing acc with
  | nil => simpa using h0
  | cons ioc rest ih =>
      simp only [List.foldl_cons]
      split
      · exact ih _ ⟨Nat.mod_lt _ (by simp [U64]), Nat.mod_lt _ (by simp [U64])⟩
      · exact ih _ h0

theorem u64sub_of_le {a b : Nat} (ha : a < U64) (hle : b ≤ a) :
    u64sub a b = a - b := by
  unfold u64sub
  have h1 : a + U64 - b = (a - b) + U64 := by omega
  rw [h1, Nat.add_mod_right, Nat.mod_eq_of_lt (by omega)]

theorem u64sub_of_lt {a b : Nat} (hb : b < U64) (hlt : a < b) :
    u64sub a b = U64 - (b - a) := by
  unfold u64sub
  have h1 : a + U64 - b = U64 - (b - a) := by omega
  rw [h1, Nat.mod_eq_of_lt (by omega)]

/-- Claim C1 as amended (proved): on two non-empty readings, the reported
speeds are the uint64 wrapping differences of the second totals minus the
first; when the second total is at least the first this is the plain
difference, and when it is smaller (counter reset or NIC reappearance)
the value wraps to 2^64 minus the drop, not to 0. -/
theorem speeds_are_wrapping_differences
    (inc exc : List String) (ios1 ios2 : List IOCounter)
    (h1 : ¬ios1.isEmpty) (h2 : ¬ios2.isEmpty) :
    ((getNetworkSpeedFallback inc exc ios1 ios2).upSpeed =
        u64sub (sumIncluded inc exc ios2).1 (sumIncluded inc exc ios1).1) ∧
    ((getNetworkSpeedFallback inc exc ios1 ios2).downSpeed =
        u64sub (sumIncluded inc exc ios2).2 (sumIncluded inc exc ios1).2) ∧
    ((sumIncluded inc exc ios1).1 ≤ (sumIncluded inc exc ios2).1 →
      (getNetworkSpeedFallback inc exc ios1 ios2).upSpeed =
        (sumIncluded inc exc ios2).1 - (sumIncluded inc exc ios1).1) ∧
    ((sumIncluded inc exc ios2).1 < (sumIncluded inc exc ios1).1 →
      (getNetworkSpeedFallback inc exc ios1 ios2).upSpeed =
        U64 - ((sumIncluded inc exc ios1).1 - (sumIncluded inc exc ios2).1)) := by
  have hup : (getNetworkSpeedFallback inc exc ios1 ios2).upSpeed =
      u64sub (sumIncluded inc exc ios2).1 (sumIncluded inc exc ios1).1 := by
    unfold getNetworkSpeedFallback
    rw [if_neg (by simpa using h1), if_neg (by simpa using h2)]
  have hdown : (getNetworkSpeedFallback inc exc ios1 ios2).downSpeed =
      u64sub (sumIncluded inc exc ios2).2 (sumIncluded inc exc ios1).2 := by
    unfold getNetworkSpeedFallback
    rw [if_neg (by simpa using h1), if_neg (by simpa using h2)]
  refine ⟨hup, hdown, ?_, ?_⟩
  · intro hle
    rw [hup, u64sub_of_le (sumIncluded_lt inc exc ios2).1 hle]
  · intro hlt
    rw [hup, u64sub_of_lt (sumIncluded_lt inc exc ios1).1 hlt]

/-- Witness for the amended claim C1: one NIC whose sent counter drops
from 100 to 50 and whose recv counter rises from 10 to 30. -/
theorem speeds_are_wrapping_differences_witness :
    ((getNetworkSpeedFallback [] [] [⟨"eth0", 100, 10⟩] [⟨"eth0", 50, 30⟩]).upSpeed =
        u64sub (sumIncluded [] [] [⟨"eth0", 50, 30⟩]).1
          (sumIncluded [] [] [⟨"eth0", 100, 10⟩]).1) ∧
    ((getNetworkSpeedFallback [] [] [⟨"eth0", 100, 10⟩] [⟨"eth0", 50, 30⟩]).downSpeed =
        u64sub (sumIncluded [] [] [⟨"eth0", 50, 30⟩]).2
          (sumIncluded [] [] [⟨"eth0", 100, 10⟩]).2) ∧
    ((sumIncluded [] [] [⟨"eth0", 100, 10⟩]).1 ≤
        (sumIncluded [] [] [⟨"eth0", 50, 30⟩]).1 →
      (getNetworkSpeedFallback [] [] [⟨"eth0", 100, 10⟩] [⟨"eth0", 50, 30⟩]).upSpeed =
        (sumIncluded [] [] [⟨"eth0", 50, 30⟩]).1 -
          (sumIncluded [] [] [⟨"eth0", 100, 10⟩]).1) ∧
    ((sumIncluded [] [] [⟨"eth0", 50, 30⟩]).1 <
        (sumIncluded [] [] [⟨"eth0", 100, 10⟩]).1 →
      (getNetworkSpeedFallback [] [] [⟨"eth0", 100, 10⟩] [⟨"eth0", 50, 30⟩]).upSpeed =
        U64 - ((sumIncluded [] [] [⟨"eth0", 100, 10⟩]).1 -
          (sumIncluded [] [] [⟨"eth0", 50, 30⟩]).1)) :=
  speeds_are_wrapping_differences [] [] [⟨"eth0", 100, 10⟩] [⟨"eth0", 50, 30⟩]
    (by decide) (by decide)

/-- Observable actions of the terminal bridge on its transport channel
and the host process table. -/
inductive TermAction where
  | writeText (s : String)
  | writeBinary (s : String)
  | closeConn
  | spawnShell
deriving DecidableEq, Repr

/-- The refusal message written by StartTerminal when web SSH is
disabled (verbatim from the terminal bridge source). -/
def webSshDisabledMsg : String :=
  "\n\nWeb SSH is disabled. Enable it by running without the --disable-web-ssh flag."

/-- StartTerminal of the terminal bridge, as the sequence of actions it
performs: when the disable-web-ssh flag is set it writes one text frame
with the refusal message and closes the connection before any shell is
created; otherwise it spawns the shell (the subsequent bidirectional
pumping is abstracted behind the spawnShell action, which the disabled
path never reaches). -/
def StartTerminal (disableWebSsh : Bool) : List TermAction :=
  if disableWebSsh then [.writeText webSshDisabledMsg, .closeConn]
  else [.spawnShell]

/-- Claim C9 (confirmed): with the disable-web-ssh flag set, handling a
terminal control message writes exactly one text frame, whose payload
contains the literal substring Web SSH is disabled, then closes the
session, and never spawns a shell process. -/
theorem disabled_web_ssh_refusal :
    StartTerminal true = [.writeText webSshDisabledMsg, .closeConn] ∧
    (∃ a b, webSshDisabledMsg = a ++ "Web SSH is disabled" ++ b) ∧
    ((StartTerminal true).filter
      (fun act => match act with | .writeText _ => true | _ => false)).length = 1 ∧
    TermAction.spawnShell ∉ StartTerminal true := by
  refine ⟨rfl, ⟨"\n\n",
    ". Enable it by running without the --disable-web-ssh flag.", by decide⟩,
    by decide, by decide⟩

/-- The command object into which the PTY bridge JSON-decodes a text
frame (the anonymous struct of handleWebSocketInput). -/
structure TermCmd where
  type : String
  cols : Int
  rows : Int
  input : String
deriving DecidableEq, Repr

/-- Observable actions of the PTY bridge on the pty. -/
inductive PtyAction where
  | ptyWrite (s : String)
  | ptyResize (cols rows : Int)
deriving DecidableEq, Repr

/-- The text-frame arm of handleWebSocketInput in the terminal bridge;
json.Unmarshal is abstracted as the parse argument (none models a JSON
decode error). A decoded resize command resizes when both dimensions are
positive; a decoded input command writes its payload when non-empty; any
other decoded command does nothing; a frame that fails to decode is
written to the pty verbatim. -/
def handleTextFrame (parse : String → Option TermCmd) (p : String) :
    List PtyAction :=
  match parse p with
  | some cmd =>
      if cmd.type = "resize" then
        if cmd.cols > 0 ∧ cmd.rows > 0 then [.ptyResize cmd.cols cmd.rows] else []
      else if cmd.type = "input" then
        if cmd.input ≠ "" then [.ptyWrite cmd.input] else []
      else []
  | none => [.ptyWrite p]

/-- Claim C10 (confirmed): a text frame that decodes to a command whose
type is neither input nor resize performs no pty write and no resize —
it is silently dropped — while a text frame that fails to decode is
written to the pty as raw bytes. -/
theorem unknown_command_dropped_invalid_json_raw
    (parse : String → Option TermCmd) (p q : String) (cmd : TermCmd)
    (hparse : parse p = some cmd)
    (h1 : cmd.type ≠ "input") (h2 : cmd.type ≠ "resize")
    (hq : parse q = none) :
    handleTextFrame parse p = [] ∧
    handleTextFrame parse q = [.ptyWrite q] := by
  constructor
  · simp [handleTextFrame, hparse, h1, h2]
  · simp [handleTextFrame, hq]

/-- Witness for claim C10: a parser that decodes the frame j to a ping
command and fails on the frame r. -/
theorem unknown_command_dropped_witness :
    handleTextFrame
      (fun s => if s = "j" then some ⟨"ping", 0, 0, ""⟩ else none) "j" = [] ∧
    handleTextFrame
      (fun s => if s = "j" then some ⟨"ping", 0, 0, ""⟩ else none) "r" =
      [.ptyWrite "r"] :=
  unknown_command_dropped_invalid_json_raw
    (fun s => if s = "j" then some ⟨"ping", 0, 0, ""⟩ else none)
    "j" "r" ⟨"ping", 0, 0, ""⟩ (by decide) (by decide) (by decide) (by decide)

/-- Default configuration values of static.go; all three are exact
integers in the source. -/
def DefaultDataPreserveDay : Nat := 31

/-- Default detect interval of static.go, in seconds. -/
def DefaultDetectInterval : Nat := 2

/-- Default save interval of static.go, in seconds. -/
def DefaultSaveInterval : Nat := 600

/-- The persisted record of static.go (struct NetStatic). -/
structure NetStatic where
  interfaces : AL (List TrafficData)
  config : NetStaticConfig
deriving DecidableEq, Repr

/-- configOrDefault of static.go: replace zero interval fields by the
package defaults (the nics field is kept as is). -/
def configOrDefault (c : NetStaticConfig) : NetStaticConfig :=
  { c with
    dataPreserveDay := if c.dataPreserveDay = 0 then DefaultDataPreserveDay
      else c.dataPreserveDay,
    detectInterval := if c.detectInterval = 0 then DefaultDetectInterval
      else c.detectInterval,
    saveInterval := if c.saveInterval = 0 then DefaultSaveInterval
      else c.saveInterval }

/-- The all-zero configuration the package globals start from. -/
def zeroConfig : NetStaticConfig := ⟨0, 0, 0, []⟩

/-- What StartOrContinue can observe of the save file: absent, an
open/read failure other than not-exist, or the full contents. -/
inductive FileState where
  | missing
  | readFailure
  | content (data : String)
deriving DecidableEq, Repr

/-- The outcome of the load path: the resulting in-memory record, the
effective configuration, whether the save file was renamed to its .bak
name, and whether an error was returned to the caller. -/
structure LoadResult where
  store : NetStatic
  config : NetStaticConfig
  renamedBak : Bool
  isErr : Bool
deriving DecidableEq, Repr

/-- StartOrContinue of static.go taken at process start (running still
false, globals zero): ensureInitLocked fills the zero configuration with
defaults, then loadFromFileLocked runs — a missing or empty file starts
empty with the default configuration; contents that fail to parse cause
the file to be renamed to its .bak name and an empty store with default
configuration, with no error returned; contents that parse become the
store (purged of expired data). json.Unmarshal is abstracted as the
parse argument; the ticker and goroutine startup that follows a
successful load has no effect on the returned state. -/
def StartOrContinue (parse : String → Option NetStatic) (file : FileState)
    (cutoff : Nat) : LoadResult :=
  let cfg1 := configOrDefault zeroConfig
  match file with
  | .missing => ⟨⟨[], cfg1⟩, cfg1, false, false⟩
  | .readFailure => ⟨⟨[], cfg1⟩, cfg1, false, true⟩
  | .content data =>
      if data = "" then ⟨⟨[], cfg1⟩, cfg1, false, false⟩
      else
        match parse data with
        | none => ⟨⟨[], cfg1⟩, cfg1, true, false⟩
        | some ns =>
            ⟨⟨purgeExpiredLocked cutoff ns.interfaces, ns.config⟩,
              configOrDefault ns.config, false, false⟩

/-- Claim C8 (confirmed): when the save file exists but its contents fail
to parse, StartOrContinue renames the file to its .bak name, starts with
an empty interface map under the default configuration, and returns
success — the parse failure is not surfaced. -/
theorem corrupt_file_renamed_and_success
    (parse : String → Option NetStatic) (data : String) (cutoff : Nat)
    (hbad : parse data = none) (hne : data ≠ "") :
    (StartOrContinue parse (.content data) cutoff).renamedBak = true ∧
    (StartOrContinue parse (.content data) cutoff).store.interfaces = [] ∧
    (StartOrContinue parse (.content data) cutoff).store.config =
      configOrDefault zeroConfig ∧
    (StartOrContinue parse (.content data) cutoff).isErr = false := by
  simp [StartOrContinue, hne, hbad]

/-- Witness for claim C8: a one-character save file no parser accepts. -/
theorem corrupt_file_renamed_witness :
    (StartOrContinue (fun _ => none) (.content "x") 0).renamedBak = true ∧
    (StartOrContinue (fun _ => none) (.content "x") 0).store.interfaces = [] ∧
    (StartOrContinue (fun _ => none) (.content "x") 0).store.config =
      configOrDefault zeroConfig ∧
    (StartOrContinue (fun _ => none) (.content "x") 0).isErr = false :=
  corrupt_file_renamed_and_success (fun _ => none) "x" 0 (by decide) (by decide)

/-- The inRange closure of GetTotalTrafficBetween in static.go: a
timestamp is in range when it is at least start (or start is the 0
sentinel) and at most stop (or stop is the 0 sentinel). -/
def inRangeB (start stop ts : Nat) : Bool :=
  (start == 0 || decide (start ≤ ts)) && (stop == 0 || decide (ts ≤ stop))

/-- The tx/rx accumulation of GetTotalTrafficBetween over one interface
slice, in uint64 arithmetic, restricted to in-range data. -/
def sumInRange (start stop : Nat) (arr : List TrafficData) : Nat × Nat :=
  arr.foldl
    (fun acc td =>
      if inRangeB start stop td.timestamp then
        ((acc.1 + td.tx) % U64, (acc.2 + td.rx) % U64)
      else acc)
    (0, 0)

/-- The add closure of GetTotalTrafficBetween in static.go: fetch the
current total for the NIC (the zero value when absent), bump its tx/rx
in uint64 arithmetic and store it back. -/
def resAdd (res : AL TrafficData) (name : String) (tx rx : Nat) : AL TrafficData :=
  let cur := (alGet res name).getD ⟨0, 0, 0⟩
  alSet res name ⟨cur.timestamp, (cur.tx + tx) % U64, (cur.rx + rx) % U64⟩

/-- The per-interface body shared by the two passes of
GetTotalTrafficBetween: sum the in-range data of the slice and add the
sums to the running totals unless both are zero. -/
def totalsStep (start stop : Nat) (res : AL TrafficData)
    (p : String × List TrafficData) : AL TrafficData :=
  if (sumInRange start stop p.2).1 > 0 ∨ (sumInRange start stop p.2).2 > 0 then
    resAdd res p.1 (sumInRange start stop p.2).1 (sumInRange start stop p.2).2
  else res

/-- One pass of GetTotalTrafficBetween over an interface map (the store
pass and the cache pass have identical bodies). -/
def totalsPass (start stop : Nat) (entries : AL (List TrafficData))
    (res : AL TrafficData) : AL TrafficData :=
  entries.foldl (totalsStep start stop) res

/-- GetTotalTrafficBetween of static.go: totals over the persistent map
followed by totals over the unflushed cache. -/
def GetTotalTrafficBetween (store cache : AL (List TrafficData))
    (start stop : Nat) : AL TrafficData :=
  totalsPass start stop cache (totalsPass start stop store [])

/-- The tx total reported for a NIC, 0 when the NIC is absent. -/
def resTx (res : AL TrafficData) (q : String) : Nat :=
  ((alGet res q).getD ⟨0, 0, 0⟩).tx

/-- The rx total reported for a NIC, 0 when the NIC is absent. -/
def resRx (res : AL TrafficData) (q : String) : Nat :=
  ((alGet res q).getD ⟨0, 0, 0⟩).rx

/-- The data of an interface map slice lying in the inclusive window. -/
def filterInRange (start stop : Nat) (arr : List TrafficData) : List TrafficData :=
  arr.filter (fun td => inRangeB start stop td.timestamp)

/-- Plain (unbounded) sum of the tx deltas of a slice. -/
def natSumTx (arr : List TrafficData) : Nat := (arr.map TrafficData.tx).sum

/-- Plain (unbounded) sum of the rx deltas of a slice. -/
def natSumRx (arr : List TrafficData) : Nat := (arr.map TrafficData.rx).sum

/-- All totals held in a result map are reduced uint64 values. -/
def resWf (res : AL TrafficData) : Prop :=
  ∀ p ∈ res, p.2.tx < U64 ∧ p.2.rx < U64

theorem U64_pos : 0 < U64 := by simp [U64]

theorem alGet_alSet_self {α : Type} (l : AL α) (k : String) (v : α) :
    alGet (alSet l k v) k = some v := by
  induction l with
  | nil => simp [alSet, alGet]
  | cons p rest ih =>
      obtain ⟨k', w⟩ := p
      by_cases h : k' = k
      · simp [alSet, alGet, h]
      · simp [alSet, alGet, h, ih]

theorem alGet_alSet_ne {α : Type} (l : AL α) {k q : String} (v : α) (h : k ≠ q) :
    alGet (alSet l k v) q = alGet l q := by
  induction l with
  | nil => simp [alSet, alGet, h]
  | cons p rest ih =>
      obtain ⟨k', w⟩ := p
      by_cases h1 : k' = k
      · subst h1; simp [alSet, alGet, h]
      · by_cases h2 : k' = q <;> simp [alSet, alGet, h1, h2, Ne.symm h, ih]

theorem resTx_resAdd_self (res : AL TrafficData) (k : String) (tx rx : Nat) :
    resTx (resAdd res k tx rx) k = (resTx res k + tx) % U64 := by
  simp [resTx, resAdd, alGet_alSet_self]

theorem resRx_resAdd_self (res : AL TrafficData) (k : String) (tx rx : Nat) :
    resRx (resAdd res k tx rx) k = (resRx res k + rx) % U64 := by
  simp [resRx, resAdd, alGet_alSet_self]

theorem resTx_resAdd_ne (res : AL TrafficData) {k q : String} (tx rx : Nat)
    (h : k ≠ q) : resTx (resAdd res k tx rx) q = resTx res q := by
  simp [resTx, resAdd, alGet_alSet_ne _ _ h]

theorem resRx_resAdd_ne (res : AL TrafficData) {k q : String} (tx rx : Nat)
    (h : k ≠ q) : resRx (resAdd res k tx rx) q = resRx res q := by
  simp [resRx, resAdd, alGet_alSet_ne _ _ h]

theorem resWf_resAdd {res : AL TrafficData} (k : String) (tx rx : Nat)
    (hwf : resWf res) : resWf (resAdd res k tx rx) := by
  intro p hp
  rcases mem_alSet hp with h | h
  · subst h
    exact ⟨Nat.mod_lt _ U64_pos, Nat.mod_lt _ U64_pos⟩
  · exact hwf p h

theorem resTx_lt {res : AL TrafficData} (hwf : resWf res) (q : String) :
    resTx res q < U64 := by
  unfold resTx
  cases hget : alGet res q with
  | none => simpa using U64_pos
  | some v => simpa using (hwf _ (alGet_mem hget)).1

theorem resRx_lt {res : AL TrafficData} (hwf : resWf res) (q : String) :
    resRx res q < U64 := by
  unfold resRx
  cases hget : alGet res q with
  | none => simpa using U64_pos
  | some v => simpa using (hwf _ (alGet_mem hget)).2

theorem sumInRange_go (start stop : Nat) (arr : List TrafficData) (a b : Nat)
    (ha : a < U64) (hb : b < U64) :
    arr.foldl
      (fun acc td =>
        if inRangeB start stop td.timestamp then
          ((acc.1 + td.tx) % U64, (acc.2 + td.rx) % U64)
        else acc) (a, b) =
    ((a + natSumTx (filterInRange start stop arr)) % U64,
     (b + natSumRx (filterInRange start stop arr)) % U64) := by
  induction arr generalizing a b with
  | nil =>
      simp [filterInRange, natSumTx, natSumRx, Nat.mod_eq_of_lt ha,
        Nat.mod_eq_of_lt hb]
  | cons td rest ih =>
      by_cases hin : inRangeB start stop td.timestamp = true
      · have e1 : filterInRange start stop (td :: rest) =
            td :: filterInRange start stop rest := by
          simp [filterInRange, hin]
        simp only [List.foldl_cons]
        rw [if_pos hin, ih _ _ (Nat.mod_lt _ U64_pos) (Nat.mod_lt _ U64_pos), e1]
        simp only [natSumTx, natSumRx, List.map_cons, List.sum_cons]
        rw [Nat.mod_add_mod, Nat.mod_add_mod, Nat.add_assoc, Nat.add_assoc]
      · have hin' : inRangeB start stop td.timestamp = false := by
          simpa using hin
        have e1 : filterInRange start stop (td :: rest) =
            filterInRange start stop rest := by
          simp [filterInRange, hin']
        simp only [List.foldl_cons]
        rw [if_neg hin, ih _ _ ha hb, e1]

theorem sumInRange_eq (start stop : Nat) (arr : List TrafficData) :
    sumInRange start stop arr =
      (natSumTx (filterInRange start stop arr) % U64,
       natSumRx (filterInRange start stop arr) % U64) := by
  have h := sumInRange_go start stop arr 0 0 U64_pos U64_pos
  simpa [sumInRange] using h

theorem resWf_totalsStep (start stop : Nat) {res : AL TrafficData}
    (p : String × List TrafficData) (hwf : resWf res) :
    resWf (totalsStep start stop res p) := by
  unfold totalsStep
  split
  · exact resWf_resAdd _ _ _ hwf
  · exact hwf

theorem resWf_totalsPass (start stop : Nat) (l : AL (List TrafficData))
    {res : AL TrafficData} (hwf : resWf res) :
    resWf (totalsPass start stop l res) := by
  induction l generalizing res with
  | nil => exact hwf
  | cons p rest ih =>
      exact ih (resWf_totalsStep start stop p hwf)

theorem totalsStep_ne (start stop : Nat) (res : AL TrafficData)
    (p : String × List TrafficData) {q : String} (h : p.1 ≠ q) :
    resTx (totalsStep start stop res p) q = resTx res q ∧
    resRx (totalsStep start stop res p) q = resRx res q := by
  unfold totalsStep
  split
  · exact ⟨resTx_resAdd_ne _ _ _ h, resRx_resAdd_ne _ _ _ h⟩
  · exact ⟨rfl, rfl⟩

theorem totalsStep_self (start stop : Nat) (res : AL TrafficData)
    (arr : List TrafficData) (q : String) (hwf : resWf res) :
    resTx (totalsStep start stop res (q, arr)) q =
      (resTx res q + natSumTx (filterInRange start stop arr)) % U64 ∧
    resRx (totalsStep start stop res (q, arr)) q =
      (resRx res q + natSumRx (filterInRange start stop arr)) % U64 := by
  unfold totalsStep
  rw [sumInRange_eq]
  split
  · constructor
    · rw [resTx_resAdd_self, Nat.add_mod_mod]
    · rw [resRx_resAdd_self, Nat.add_mod_mod]
  · rename_i hzero
    simp only [not_or, Nat.pos_iff_ne_zero, not_not] at hzero
    constructor
    · rw [← Nat.add_mod_mod, hzero.1, Nat.add_zero,
        Nat.mod_eq_of_lt (resTx_lt hwf q)]
    · rw [← Nat.add_mod_mod, hzero.2, Nat.add_zero,
        Nat.mod_eq_of_lt (resRx_lt hwf q)]

theorem totalsPass_not_mem (start stop : Nat) (l : AL (List TrafficData))
    (res : AL TrafficData) (q : String) (h : ∀ p ∈ l, p.1 ≠ q) :
    resTx (totalsPass start stop l res) q = resTx res q ∧
    resRx (totalsPass start stop l res) q = resRx res q := by
  induction l generalizing res with
  | nil => exact ⟨rfl, rfl⟩
  | cons p rest ih =>
      have hp : p.1 ≠ q := h p (List.mem_cons_self _ _)
      have hrest : ∀ r ∈ rest, r.1 ≠ q := fun r hr => h r (List.mem_cons_of_mem _ hr)
      have hstep := totalsStep_ne start stop res p hp
      have hih := ih (totalsStep start stop res p) hrest
      exact ⟨hih.1.trans hstep.1, hih.2.trans hstep.2⟩

theorem totalsPass_eq (start stop : Nat) (l : AL (List TrafficData))
    (res : AL TrafficData) (q : String)
    (hnd : (l.map Prod.fst).Nodup) (hwf : resWf res) :
    resTx (totalsPass start stop l res) q =
      (resTx res q + natSumTx (filterInRange start stop (alGetArr l q))) % U64 ∧
    resRx (totalsPass start stop l res) q =
      (resRx res q + natSumRx (filterInRange start stop (alGetArr l q))) % U64 := by
  induction l generalizing res with
  | nil =>
      simp [totalsPass, alGetArr, alGet, filterInRange, natSumTx, natSumRx,
        Nat.mod_eq_of_lt (resTx_lt hwf q), Nat.mod_eq_of_lt (resRx_lt hwf q)]
  | cons p rest ih =>
      obtain ⟨k, arr⟩ := p
      simp only [List.map_cons, List.nodup_cons] at hnd
      obtain ⟨hk, hnd'⟩ := hnd
      by_cases hkq : k = q
      · subst hkq
        have hrest : ∀ r ∈ rest, r.1 ≠ k := by
          intro r hr hrq
          exact hk (hrq ▸ List.mem_map_of_mem Prod.fst hr)
        have h1 := totalsPass_not_mem start stop rest
          (totalsStep start stop res (k, arr)) k hrest
        have h2 := totalsStep_self start stop res arr k hwf
        have e1 : alGetArr ((k, arr) :: rest) k = arr := by
          simp [alGetArr, alGet]
        rw [e1]
        exact ⟨h1.1.trans h2.1, h1.2.trans h2.2⟩
      · have hstep := totalsStep_ne start stop res (k, arr) hkq
        have hwf' := resWf_totalsStep start stop (k, arr) hwf
        have hih := ih (totalsStep start stop res (k, arr)) hnd' hwf'
        have e1 : alGetArr ((k, arr) :: rest) q = alGetArr rest q := by
          simp [alGetArr, alGet, hkq]
        rw [e1] at *
        exact ⟨hih.1.trans (by rw [hstep.1]), hih.2.trans (by rw [hstep.2])⟩

/-- Claim C5 (confirmed): for every NIC name, GetTotalTrafficBetween
reports exactly the uint64 sum of the tx and rx deltas of all data —
persistent store plus unflushed cache — whose timestamp lies in the
inclusive window from start to stop, where a 0 bound means the bound is
absent (NICs with no in-window data are absent from the result, which
the 0-defaulting read makes the empty sum). -/
theorem totals_between_are_window_sums
    (store cache : AL (List TrafficData)) (start stop : Nat) (q : String)
    (hs : (store.map Prod.fst).Nodup) (hc : (cache.map Prod.fst).Nodup) :
    resTx (GetTotalTrafficBetween store cache start stop) q =
      (natSumTx (filterInRange start stop (alGetArr store q)) +
       natSumTx (filterInRange start stop (alGetArr cache q))) % U64 ∧
    resRx (GetTotalTrafficBetween store cache start stop) q =
      (natSumRx (filterInRange start stop (alGetArr store q)) +
       natSumRx (filterInRange start stop (alGetArr cache q))) % U64 := by
  unfold GetTotalTrafficBetween
  have hwf0 : resWf ([] : AL TrafficData) := by
    intro p hp; simp at hp
  have hwf1 : resWf (totalsPass start stop store []) :=
    resWf_totalsPass start stop store hwf0
  have h1 := totalsPass_eq start stop store [] q hs hwf0
  have h2 := totalsPass_eq start stop cache (totalsPass start stop store []) q hc hwf1
  have e0tx : resTx ([] : AL TrafficData) q = 0 := rfl
  have e0rx : resRx ([] : AL TrafficData) q = 0 := rfl
  rw [e0tx, Nat.zero_add] at h1
  rw [e0rx, Nat.zero_add] at h1
  constructor
  · rw [h2.1, h1.1, Nat.mod_add_mod]
  · rw [h2.2, h1.2, Nat.mod_add_mod]

/-- Witness for claim C5: a two-NIC store and a one-NIC cache with a
bounded window. -/
theorem totals_between_witness :
    resTx (GetTotalTrafficBetween
      [("eth0", [⟨10, 1, 2⟩, ⟨20, 3, 4⟩]), ("eth1", [⟨15, 7, 8⟩])]
      [("eth0", [⟨25, 5, 6⟩])] 10 25) "eth0" =
      (natSumTx (filterInRange 10 25
        (alGetArr [("eth0", [⟨10, 1, 2⟩, ⟨20, 3, 4⟩]), ("eth1", [⟨15, 7, 8⟩])] "eth0")) +
       natSumTx (filterInRange 10 25
        (alGetArr [("eth0", [⟨25, 5, 6⟩])] "eth0"))) % U64 ∧
    resRx (GetTotalTrafficBetween
      [("eth0", [⟨10, 1, 2⟩, ⟨20, 3, 4⟩]), ("eth1", [⟨15, 7, 8⟩])]
      [("eth0", [⟨25, 5, 6⟩])] 10 25) "eth0" =
      (natSumRx (filterInRange 10 25
        (alGetArr [("eth0", [⟨10, 1, 2⟩, ⟨20, 3, 4⟩]), ("eth1", [⟨15, 7, 8⟩])] "eth0")) +
       natSumRx (filterInRange 10 25
        (alGetArr [("eth0", [⟨25, 5, 6⟩])] "eth0"))) % U64 :=
  totals_between_are_window_sums
    [("eth0", [⟨10, 1, 2⟩, ⟨20, 3, 4⟩]), ("eth1", [⟨15, 7, 8⟩])]
    [("eth0", [⟨25, 5, 6⟩])] 10 25 "eth0" (by decide) (by decide)

/-- A Go time.Time value in some fixed location: calendar fields plus
the nanosecond offset within the day. Well-formed values (wfTime) order
exactly as instants, lexicographically. -/
structure GoTime where
  year : Int
  month : Int
  day : Int
  nsod : Int
deriving DecidableEq, Repr

/-- Leap year of the proleptic Gregorian calendar used by Go's time
package (divisibility tests agree between Go's truncated and Lean's
euclidean remainder). -/
def isLeapYear (y : Int) : Bool :=
  (y % 4 == 0 && y % 100 != 0) || y % 400 == 0

/-- Number of days of a month (1 ≤ m ≤ 12). The source computes this as
the Day of time.Date(y, m+1, 1).AddDate(0, 0, -1), which equals the
calendar month length. -/
def daysIn (y m : Int) : Int :=
  if m = 2 then (if isLeapYear y then 29 else 28)
  else if m = 4 ∨ m = 6 ∨ m = 9 ∨ m = 11 then 30
  else 31

/-- getActualResetDate of the utils package: midnight of day resetDay of
the month when the month is long enough, otherwise midnight of day 1 of
the following month (the source's explicit year rollover for month 13 is
the normalization time.Date performs). -/
def getActualResetDate (year month resetDay : Int) : GoTime :=
  if resetDay ≤ daysIn year month then ⟨year, month, resetDay, 0⟩
  else if month + 1 > 12 then ⟨year + 1, 1, 1, 0⟩
  else ⟨year, month + 1, 1, 0⟩

/-- Strict instant order on well-formed GoTime values (Go's
time.Before). -/
def timeLt (a b : GoTime) : Prop :=
  a.year < b.year ∨
    (a.year = b.year ∧
      (a.month < b.month ∨
        (a.month = b.month ∧
          (a.day < b.day ∨ (a.day = b.day ∧ a.nsod < b.nsod)))))

instance (a b : GoTime) : Decidable (timeLt a b) := by
  unfold timeLt; infer_instance

/-- Non-strict instant order: a is not after b. -/
def timeLe (a b : GoTime) : Prop := ¬timeLt b a

instance (a b : GoTime) : Decidable (timeLe a b) := by
  unfold timeLe; infer_instance

/-- Go's currentDate.Before(other) as a boolean. -/
def beforeTime (a b : GoTime) : Bool := decide (timeLt a b)

/-- GetLastResetDate of the utils package: reject reset days outside
1..31 by returning the input; otherwise return this month's actual reset
date when the current date is not before it, and the previous month's
actual reset date when it is. -/
def GetLastResetDate (resetDay : Int) (cur : GoTime) : GoTime :=
  if resetDay < 1 ∨ resetDay > 31 then cur
  else if ¬beforeTime cur (getActualResetDate cur.year cur.month resetDay) then
    getActualResetDate cur.year cur.month resetDay
  else if cur.month - 1 < 1 then getActualResetDate (cur.year - 1) 12 resetDay
  else getActualResetDate cur.year (cur.month - 1) resetDay

/-- Well-formedness of a GoTime: calendar fields in range and the
time-of-day inside one day (86400e9 nanoseconds). -/
def wfTime (t : GoTime) : Prop :=
  1 ≤ t.month ∧ t.month ≤ 12 ∧ 1 ≤ t.day ∧ t.day ≤ daysIn t.year t.month ∧
    0 ≤ t.nsod ∧ t.nsod < 86400000000000

instance (t : GoTime) : Decidable (wfTime t) := by
  unfold wfTime; infer_instance

/-- Midnight of day 1 of the month following (y, m), for 1 ≤ m ≤ 12. -/
def nextMonthFirst (y m : Int) : GoTime :=
  if 12 ≤ m then ⟨y + 1, 1, 1, 0⟩ else ⟨y, m + 1, 1, 0⟩

theorem daysIn_bounds (y m : Int) : 28 ≤ daysIn y m ∧ daysIn y m ≤ 31 := by
  unfold daysIn
  split_ifs <;> omega

theorem timeLe_refl (a : GoTime) : timeLe a a := by
  simp only [timeLe, timeLt]; omega

theorem timeLe_trans {a b c : GoTime} (h1 : timeLe a b) (h2 : timeLe b c) :
    timeLe a c := by
  simp only [timeLe, timeLt] at *; omega

theorem timeLt_of_lt_of_le {a b c : GoTime} (h1 : timeLt a b) (h2 : timeLe b c) :
    timeLt a c := by
  simp only [timeLe, timeLt] at *; omega

theorem wf_getActualResetDate {y m d : Int} (h1 : 1 ≤ d) (h2 : d ≤ 31)
    (h3 : 1 ≤ m) (h4 : m ≤ 12) : wfTime (getActualResetDate y m d) := by
  have hb1 := daysIn_bounds y m
  have hb2 := daysIn_bounds (y + 1) 1
  have hb3 := daysIn_bounds y (m + 1)
  unfold getActualResetDate
  split_ifs <;> simp [wfTime] <;> omega

theorem first_le_getActualResetDate {y m d : Int} (h1 : 1 ≤ d) :
    timeLe ⟨y, m, 1, 0⟩ (getActualResetDate y m d) := by
  unfold getActualResetDate
  split_ifs <;> simp [timeLe, timeLt] <;> omega

theorem getActualResetDate_le_next {y m d : Int} (h2 : d ≤ 31) (h4 : m ≤ 12) :
    timeLe (getActualResetDate y m d) (nextMonthFirst y m) := by
  have hb := daysIn_bounds y m
  unfold getActualResetDate nextMonthFirst
  split_ifs <;> simp [timeLe, timeLt] <;> omega

theorem next_le_first {y1 m1 y2 m2 : Int}
    (h : y1 < y2 ∨ (y1 = y2 ∧ m1 < m2)) (h1 : m1 ≤ 12) (h3 : 1 ≤ m2)
    (h4 : m2 ≤ 12) :
    timeLe (nextMonthFirst y1 m1) ⟨y2, m2, 1, 0⟩ := by
  unfold nextMonthFirst
  split_ifs <;> simp [timeLe, timeLt] <;> omega

theorem first_le_self {t : GoTime} (hwf : wfTime t) :
    timeLe ⟨t.year, t.month, 1, 0⟩ t := by
  obtain ⟨w1, w2, w3, w4, w5, w6⟩ := hwf
  simp [timeLe, timeLt]
  omega

theorem self_lt_first {t : GoTime} {y m : Int} (hwf : wfTime t)
    (h : t.year < y ∨ (t.year = y ∧ t.month < m)) :
    timeLt t ⟨y, m, 1, 0⟩ := by
  obtain ⟨w1, w2, w3, w4, w5, w6⟩ := hwf
  simp [timeLt]
  omega

theorem branchB_aux (resetDay : Int) (now : GoTime) (py pm : Int)
    (h1 : 1 ≤ resetDay) (h2 : resetDay ≤ 31) (hwf : wfTime now)
    (hpm1 : 1 ≤ pm) (hpm2 : pm ≤ 12)
    (hnext : nextMonthFirst py pm = ⟨now.year, now.month, 1, 0⟩)
    (hsucc : ∀ y m : Int, 1 ≤ m → m ≤ 12 → (py < y ∨ (py = y ∧ pm < m)) →
      (y = now.year ∧ m = now.month) ∨
        (now.year < y ∨ (now.year = y ∧ now.month < m)))
    (hA : timeLt now (getActualResetDate now.year now.month resetDay)) :
    timeLe (getActualResetDate py pm resetDay) now ∧
    (∀ y m, 1 ≤ m → m ≤ 12 → timeLe (getActualResetDate y m resetDay) now →
      timeLe (getActualResetDate y m resetDay) (getActualResetDate py pm resetDay)) := by
  constructor
  · have s1 : timeLe (getActualResetDate py pm resetDay) (nextMonthFirst py pm) :=
      getActualResetDate_le_next h2 hpm2
    rw [hnext] at s1
    exact timeLe_trans s1 (first_le_self hwf)
  · intro y m hm1 hm2 hle
    have htri : (py < y ∨ (py = y ∧ pm < m)) ∨ (py = y ∧ pm = m) ∨
        (y < py ∨ (y = py ∧ m < pm)) := by omega
    rcases htri with hgt | heq | hlt
    · rcases hsucc y m hm1 hm2 hgt with ⟨rfl, rfl⟩ | hafter
      · exact absurd hA hle
      · exfalso
        have s1 : timeLt now (⟨y, m, 1, 0⟩ : GoTime) := self_lt_first hwf hafter
        have s2 : timeLe (⟨y, m, 1, 0⟩ : GoTime) (getActualResetDate y m resetDay) :=
          first_le_getActualResetDate h1
        exact hle (timeLt_of_lt_of_le s1 s2)
    · obtain ⟨rfl, rfl⟩ := heq
      exact timeLe_refl _
    · have s1 : timeLe (getActualResetDate y m resetDay) (nextMonthFirst y m) :=
        getActualResetDate_le_next h2 hm2
      have s2 : timeLe (nextMonthFirst y m) (⟨py, pm, 1, 0⟩ : GoTime) :=
        next_le_first (by omega) hm2 hpm1 hpm2
      have s3 : timeLe (⟨py, pm, 1, 0⟩ : GoTime) (getActualResetDate py pm resetDay) :=
        first_le_getActualResetDate h1
      exact timeLe_trans (timeLe_trans s1 s2) s3

/-- Claim C3 (confirmed): for every reset day in 1..31 and every
well-formed time now, GetLastResetDate returns a month's actual reset
date under the roll-forward rule (day resetDay of the month, or day 1 of
the following month when the month is too short), it is not after now,
and it is the most recent among all such reset dates not after now; in
particular reset day 31 with the previous month June 2024 (30 days)
gives July 1, and reset day 1 at exactly midnight 2024-03-01 gives
2024-03-01 itself. -/
theorem lastResetDate_is_most_recent
    (resetDay : Int) (now : GoTime)
    (h1 : 1 ≤ resetDay) (h2 : resetDay ≤ 31) (hwf : wfTime now) :
    (∃ y m, 1 ≤ m ∧ m ≤ 12 ∧
        GetLastResetDate resetDay now = getActualResetDate y m resetDay) ∧
    timeLe (GetLastResetDate resetDay now) now ∧
    (∀ y m, 1 ≤ m → m ≤ 12 →
        timeLe (getActualResetDate y m resetDay) now →
        timeLe (getActualResetDate y m resetDay) (GetLastResetDate resetDay now)) ∧
    GetLastResetDate 31 ⟨2024, 7, 2, 0⟩ = ⟨2024, 7, 1, 0⟩ ∧
    GetLastResetDate 1 ⟨2024, 3, 1, 0⟩ = ⟨2024, 3, 1, 0⟩ := by
  have hw := hwf
  obtain ⟨w1, w2, w3, w4, w5, w6⟩ := hw
  have hcond : ¬(resetDay < 1 ∨ resetDay > 31) := by omega
  by_cases hA : timeLt now (getActualResetDate now.year now.month resetDay)
  · by_cases hm : now.month - 1 < 1
    · have ego : GetLastResetDate resetDay now =
          getActualResetDate (now.year - 1) 12 resetDay := by
        simp [GetLastResetDate, hcond, beforeTime, hA, hm]
      have hnext : nextMonthFirst (now.year - 1) 12 =
          (⟨now.year, now.month, 1, 0⟩ : GoTime) := by
        simp [nextMonthFirst]
        omega
      have haux := branchB_aux resetDay now (now.year - 1) 12 h1 h2 hwf
        (by omega) (by omega) hnext (by intro y m hm1 hm2 hgt; omega) hA
      rw [ego]
      exact ⟨⟨now.year - 1, 12, by omega, by omega, rfl⟩, haux.1,
        fun y m a b c => haux.2 y m a b c, by decide, by decide⟩
    · have ego : GetLastResetDate resetDay now =
          getActualResetDate now.year (now.month - 1) resetDay := by
        simp [GetLastResetDate, hcond, beforeTime, hA, hm]
      have hnext : nextMonthFirst now.year (now.month - 1) =
          (⟨now.year, now.month, 1, 0⟩ : GoTime) := by
        simp only [nextMonthFirst]
        rw [if_neg (by omega)]
        simp
      have haux := branchB_aux resetDay now now.year (now.month - 1) h1 h2 hwf
        (by omega) (by omega) hnext (by intro y m hm1 hm2 hgt; omega) hA
      rw [ego]
      exact ⟨⟨now.year, now.month - 1, by omega, by omega, rfl⟩, haux.1,
        fun y m a b c => haux.2 y m a b c, by decide, by decide⟩
  · have ego : GetLastResetDate resetDay now =
        getActualResetDate now.year now.month resetDay := by
      simp [GetLastResetDate, hcond, beforeTime, hA]
    rw [ego]
    refine ⟨⟨now.year, now.month, by omega, by omega, rfl⟩, hA, ?_, by decide, by decide⟩
    intro y m hm1 hm2 hle
    have htri : (y < now.year ∨ (y = now.year ∧ m < now.month)) ∨
        (y = now.year ∧ m = now.month) ∨
        (now.year < y ∨ (now.year = y ∧ now.month < m)) := by omega
    rcases htri with hlt | heq | hgt
    · have s1 : timeLe (getActualResetDate y m resetDay) (nextMonthFirst y m) :=
        getActualResetDate_le_next h2 hm2
      have s2 : timeLe (nextMonthFirst y m)
          (⟨now.year, now.month, 1, 0⟩ : GoTime) :=
        next_le_first hlt hm2 (by omega) (by omega)
      have s3 : timeLe (⟨now.year, now.month, 1, 0⟩ : GoTime)
          (getActualResetDate now.year now.month resetDay) :=
        first_le_getActualResetDate h1
      exact timeLe_trans (timeLe_trans s1 s2) s3
    · obtain ⟨rfl, rfl⟩ := heq
      exact timeLe_refl _
    · exfalso
      have s1 : timeLt now (⟨y, m, 1, 0⟩ : GoTime) := self_lt_first hwf hgt
      have s2 : timeLe (⟨y, m, 1, 0⟩ : GoTime) (getActualResetDate y m resetDay) :=
        first_le_getActualResetDate h1
      exact hle (timeLt_of_lt_of_le s1 s2)

/-- Witness for claim C3 at reset day 15 and now 2024-03-10 00:00. -/
theorem lastResetDate_witness :
    (∃ y m, 1 ≤ m ∧ m ≤ 12 ∧
        GetLastResetDate 15 ⟨2024, 3, 10, 0⟩ = getActualResetDate y m 15) ∧
    timeLe (GetLastResetDate 15 ⟨2024, 3, 10, 0⟩) ⟨2024, 3, 10, 0⟩ ∧
    (∀ y m, 1 ≤ m → m ≤ 12 →
        timeLe (getActualResetDate y m 15) ⟨2024, 3, 10, 0⟩ →
        timeLe (getActualResetDate y m 15) (GetLastResetDate 15 ⟨2024, 3, 10, 0⟩)) ∧
    GetLastResetDate 31 ⟨2024, 7, 2, 0⟩ = ⟨2024, 7, 1, 0⟩ ∧
    GetLastResetDate 1 ⟨2024, 3, 1, 0⟩ = ⟨2024, 3, 1, 0⟩ :=
  lastResetDate_is_most_recent 15 ⟨2024, 3, 10, 0⟩ (by decide) (by decide)
    (by decide)

end KomariAgent
